import Mathlib

/-!
Verification of the file-pool statistics collection layer
(pkg/builder/file_pool_stats_build_executor.go).

Shallow embedding notes:

* All Go `uint64` fields are modelled as `Nat`.  The Go code only ever
  increments these fields by small deltas, and the only subtractions
  (`fp.totalSize -= f.size` in `updateSizeLocked` and in `Close`, and
  `fp.totalFiles--` in `Close`) are shown below (see `run_inv`) never to
  underflow on any reachable state, so the `Nat` semantics coincides with
  the Go `uint64` semantics on every reachable state; 2^64 wrap-around
  would require more than 2^64 operations on one pool and is not modelled.
* File offsets and truncation lengths are modelled as `Nat` (the Go code
  reinterprets a negative `int64` offset modulo 2^64 via `uint64(off)`;
  such calls are outside the model).
* The wrapped inner `FileReadWriter` / `FilePool` / `BuildExecutor` are
  external collaborators.  Their outcomes (bytes transferred, errors) are
  inputs to each operation, with an abstract error type `ε`.
-/

/-- Mirror of the `resourceusage.FilePoolResourceUsage` message fields that
`statsCollectingFilePool` maintains in `fp.stats`. -/
structure FilePoolResourceUsage where
  FilesCreated : Nat
  FilesCountPeak : Nat
  FilesSizeBytesPeak : Nat
  ReadsCount : Nat
  ReadsSizeBytes : Nat
  WritesCount : Nat
  WritesSizeBytes : Nat
  TruncatesCount : Nat
deriving Repr, DecidableEq

/-- Mutable state of a `statsCollectingFilePool`: the stats message plus the
live counters `totalSize` and `totalFiles` (the `base` pool and the mutex
are not part of the sequential state). -/
structure PoolState where
  stats : FilePoolResourceUsage
  totalSize : Nat
  totalFiles : Nat
deriving Repr, DecidableEq

/-- Zero-valued stats, the state of a freshly constructed pool. -/
def initStats : FilePoolResourceUsage :=
  ⟨0, 0, 0, 0, 0, 0, 0, 0⟩

/-- Freshly constructed `statsCollectingFilePool` (Go zero value). -/
def initPool : PoolState :=
  ⟨initStats, 0, 0⟩

/-- Mirror of `statsCollectingFileReadWriter.updateSizeLocked`:
`fp.totalSize -= f.size; f.size = newSize; fp.totalSize += f.size;`
then raise `FilesSizeBytesPeak` if the new total exceeds it.
Returns the updated pool state and the new per-handle `size` field. -/
def updateSizeLocked (fp : PoolState) (fsize newSize : Nat) : PoolState × Nat :=
  let ts := fp.totalSize - fsize + newSize
  let pk :=
    if fp.stats.FilesSizeBytesPeak < ts then ts else fp.stats.FilesSizeBytesPeak
  ({ fp with
      totalSize := ts
      stats := { fp.stats with FilesSizeBytesPeak := pk } },
   newSize)

/-- Mirror of `statsCollectingFileReadWriter.ReadAt`.  The wrapped handle's
outcome `inner = (n, err)` is an input; the function returns the updated
pool state, the (unchanged) per-handle size, and the value/error pair that
the instrumented method returns to its caller. -/
def ReadAt (fp : PoolState) (fsize : Nat) (inner : Nat × Option ε) :
    (PoolState × Nat) × (Nat × Option ε) :=
  let n := inner.1
  (({ fp with
       stats := { fp.stats with
                   ReadsCount := fp.stats.ReadsCount + 1
                   ReadsSizeBytes := fp.stats.ReadsSizeBytes + n } },
    fsize),
   inner)

/-- Mirror of `statsCollectingFileReadWriter.WriteAt`.  `off` is the write
offset, `inner = (n, err)` the wrapped handle's outcome.  Returns the
updated pool state, the new per-handle size, and the returned pair. -/
def WriteAt (fp : PoolState) (fsize : Nat) (off : Nat) (inner : Nat × Option ε) :
    (PoolState × Nat) × (Nat × Option ε) :=
  let n := inner.1
  let fp1 := { fp with
                stats := { fp.stats with
                            WritesCount := fp.stats.WritesCount + 1
                            WritesSizeBytes := fp.stats.WritesSizeBytes + n } }
  let upd :=
    if 0 < n then
      if fsize < off + n then updateSizeLocked fp1 fsize (off + n) else (fp1, fsize)
    else (fp1, fsize)
  (upd, inner)

/-- Mirror of `statsCollectingFileReadWriter.Truncate`.  `length` is the
requested length and `innerErr` the wrapped handle's result.  Returns the
updated pool state, the new per-handle size, and the returned error. -/
def Truncate (fp : PoolState) (fsize : Nat) (length : Nat) (innerErr : Option ε) :
    (PoolState × Nat) × Option ε :=
  let fp1 := { fp with
                stats := { fp.stats with
                            TruncatesCount := fp.stats.TruncatesCount + 1 } }
  let upd :=
    match innerErr with
    | none => updateSizeLocked fp1 fsize length
    | some _ => (fp1, fsize)
  (upd, innerErr)

/-- Mirror of `statsCollectingFileReadWriter.Close`.  `innerErr` is the
wrapped handle's close result.  Returns the updated pool state and the
returned error (the handle itself is detached by the caller). -/
def Close (fp : PoolState) (fsize : Nat) (innerErr : Option ε) :
    PoolState × Option ε :=
  ({ fp with
      totalFiles := fp.totalFiles - 1
      totalSize := fp.totalSize - fsize },
   innerErr)

/-- Mirror of `statsCollectingFilePool.NewFile`.  `innerErr` is the inner
pool's result (`none` meaning a handle was created).  Returns the updated
pool state, `some size` for the freshly wrapped handle (always size 0) or
`none` when creation failed, and the returned error. -/
def NewFile (fp : PoolState) (innerErr : Option ε) :
    PoolState × Option Nat × Option ε :=
  match innerErr with
  | some e => (fp, none, some e)
  | none =>
    let tf := fp.totalFiles + 1
    let pk := if fp.stats.FilesCountPeak < tf then tf else fp.stats.FilesCountPeak
    ({ fp with
        totalFiles := tf
        stats := { fp.stats with
                    FilesCreated := fp.stats.FilesCreated + 1
                    FilesCountPeak := pk } },
     some 0, none)

/-- Observable events on one pool.  Each event carries the wrapped (inner)
collaborator's outcome for that call; handle-addressed events name the
handle by its creation index. -/
inductive Event (ε : Type) where
  | newFile (innerErr : Option ε)
  | readAt (h : Nat) (innerN : Nat) (innerErr : Option ε)
  | writeAt (h : Nat) (off : Nat) (innerN : Nat) (innerErr : Option ε)
  | truncate (h : Nat) (length : Nat) (innerErr : Option ε)
  | close (h : Nat) (innerErr : Option ε)
deriving Repr, DecidableEq

/-- Whole-system state: the pool plus the per-handle `size` fields of the
handles created so far, indexed by creation order (`none` once closed). -/
structure SysState where
  pool : PoolState
  handles : List (Option Nat)
deriving Repr, DecidableEq

/-- Fresh system state: new pool, no handles. -/
def initSys : SysState :=
  ⟨initPool, []⟩

/-- Step semantics: apply one event.  A handle-addressed event is only
valid (Go: only defined, §9 of the spec) while that handle is open;
otherwise the step is rejected with `none`. -/
def step (s : SysState) : Event ε → Option SysState
  | Event.newFile innerErr =>
    match NewFile s.pool innerErr with
    | (fp, some sz, _) => some ⟨fp, s.handles ++ [some sz]⟩
    | (fp, none, _) => some ⟨fp, s.handles⟩
  | Event.readAt h n e =>
    match s.handles[h]? with
    | some (some sz) =>
      some ⟨(ReadAt s.pool sz (n, e)).1.1,
            s.handles.set h (some (ReadAt s.pool sz (n, e)).1.2)⟩
    | _ => none
  | Event.writeAt h off n e =>
    match s.handles[h]? with
    | some (some sz) =>
      some ⟨(WriteAt s.pool sz off (n, e)).1.1,
            s.handles.set h (some (WriteAt s.pool sz off (n, e)).1.2)⟩
    | _ => none
  | Event.truncate h len e =>
    match s.handles[h]? with
    | some (some sz) =>
      some ⟨(Truncate s.pool sz len e).1.1,
            s.handles.set h (some (Truncate s.pool sz len e).1.2)⟩
    | _ => none
  | Event.close h e =>
    match s.handles[h]? with
    | some (some sz) => some ⟨(Close s.pool sz e).1, s.handles.set h none⟩
    | _ => none

/-- Run a list of events from a state. -/
def run (s : SysState) : List (Event ε) → Option SysState
  | [] => some s
  | e :: es =>
    match step s e with
    | some s' => run s' es
    | none => none

/-- Sizes of the currently open handles, in creation order. -/
def opens : List (Option Nat) → List Nat
  | [] => []
  | none :: l => opens l
  | some a :: l => a :: opens l

/-- Number of currently open handles of a system state. -/
def openCount (s : SysState) : Nat :=
  (opens s.handles).length

/-- Sum of the current sizes of the open handles of a system state. -/
def openSizes (s : SysState) : Nat :=
  (opens s.handles).sum

/-- Abstraction of `remoteexecution.ExecuteResponse` at the boundary this
layer touches: the primary result (`ρ`), the
`Result.ExecutionMetadata.AuxiliaryMetadata` list (entries of type `μ`),
and the diagnostics attached via `attachErrorToExecuteResponse`. -/
structure ExecuteResponse (ρ μ ε : Type) where
  result : ρ
  auxiliaryMetadata : List μ
  attachedErrors : List (String × ε)
deriving Repr, DecidableEq

/-- Message with which `util.StatusWrap` wraps a marshalling failure in
`filePoolStatsBuildExecutor.Execute`. -/
def marshalFailureMessage : String :=
  "Failed to marshal file pool resource usage"

/-- Modelled from the spec: `attachErrorToExecuteResponse` (repository code
outside the provided source) records a descriptive error onto an already
produced response via the standard error-attachment channel without
altering the primary result.  Modelled as appending the wrapped error to
the response's diagnostic list. -/
def attachErrorToExecuteResponse (r : ExecuteResponse ρ μ ε) (e : String × ε) :
    ExecuteResponse ρ μ ε :=
  { r with attachedErrors := r.attachedErrors ++ [e] }

/-- Mirror of the annotation half of `filePoolStatsBuildExecutor.Execute`:
given the inner executor's response and the stats snapshot read under the
pool lock, marshal the snapshot (`anypb.New`, an external collaborator
modelled as the `marshal` argument) and either append it to the auxiliary
metadata or attach a wrapped error. -/
def ExecuteAnnotate (response : ExecuteResponse ρ μ ε)
    (stats : FilePoolResourceUsage)
    (marshal : FilePoolResourceUsage → Except ε μ) : ExecuteResponse ρ μ ε :=
  match marshal stats with
  | Except.ok resourceUsage =>
    { response with
        auxiliaryMetadata := response.auxiliaryMetadata ++ [resourceUsage] }
  | Except.error e =>
    attachErrorToExecuteResponse response (marshalFailureMessage, e)

/-!
Helper lemmas about `opens` under `List.set` and append, used to relate the
pool's live counters to the open handles.
-/

theorem opens_append (l l' : List (Option Nat)) :
    opens (l ++ l') = opens l ++ opens l' := by
  induction l with
  | nil => rfl
  | cons x xs ih => cases x <;> simp [opens, ih]

theorem opens_getElem_le_sum (l : List (Option Nat)) (h : Nat) (a : Nat)
    (hh : l[h]? = some (some a)) : a ≤ (opens l).sum := by
  induction l generalizing h with
  | nil => simp at hh
  | cons x xs ih =>
    cases h with
    | zero =>
      simp at hh
      subst hh
      simp [opens]
    | succ h =>
      simp at hh
      have hx := ih h hh
      cases x <;> simp [opens] <;> omega

theorem opens_set_some (l : List (Option Nat)) (h : Nat) (a b : Nat)
    (hh : l[h]? = some (some a)) :
    (opens (l.set h (some b))).length = (opens l).length ∧
    (opens (l.set h (some b))).sum + a = (opens l).sum + b := by
  induction l generalizing h with
  | nil => simp at hh
  | cons x xs ih =>
    cases h with
    | zero =>
      simp at hh
      subst hh
      simp [opens]
      omega
    | succ h =>
      simp at hh
      obtain ⟨ih1, ih2⟩ := ih h hh
      cases x <;> simp [opens, List.set_cons_succ, ih1] <;> omega

theorem opens_set_none (l : List (Option Nat)) (h : Nat) (a : Nat)
    (hh : l[h]? = some (some a)) :
    (opens (l.set h none)).length + 1 = (opens l).length ∧
    (opens (l.set h none)).sum + a = (opens l).sum := by
  induction l generalizing h with
  | nil => simp at hh
  | cons x xs ih =>
    cases h with
    | zero =>
      simp at hh
      subst hh
      simp [opens]
      omega
    | succ h =>
      simp at hh
      obtain ⟨ih1, ih2⟩ := ih h hh
      cases x <;> simp [opens, List.set_cons_succ] <;> omega

/-- Pool-state invariant: the live counters `totalFiles` and `totalSize`
agree with the open handles, and each live counter is bounded by its peak
field. -/
def PoolInv (s : SysState) : Prop :=
  s.pool.totalFiles = openCount s ∧
  s.pool.totalSize = openSizes s ∧
  s.pool.totalFiles ≤ s.pool.stats.FilesCountPeak ∧
  s.pool.totalSize ≤ s.pool.stats.FilesSizeBytesPeak

theorem step_inv {ε : Type} {s s' : SysState} {e : Event ε}
    (hs : step s e = some s') (hinv : PoolInv s) : PoolInv s' := by
  obtain ⟨h1, h2, h3, h4⟩ := hinv
  simp only [openCount, openSizes] at h1 h2
  cases e with
  | newFile ierr =>
    cases ierr with
    | some er =>
      simp [step, NewFile] at hs
      subst hs
      exact ⟨h1, h2, h3, h4⟩
    | none =>
      simp [step, NewFile] at hs
      subst hs
      refine ⟨?_, ?_, ?_, ?_⟩ <;>
        simp [PoolInv, openCount, openSizes, opens_append, opens] <;>
        first
          | omega
          | (split <;> omega)
  | readAt h n er =>
    rcases hht : s.handles[h]? with _ | (_ | sz)
    · simp [step, hht] at hs
    · simp [step, hht] at hs
    · simp only [step, hht, Option.some.injEq] at hs
      subst hs
      obtain ⟨hl, hsum⟩ := opens_set_some s.handles h sz sz hht
      refine ⟨?_, ?_, ?_, ?_⟩ <;>
        simp [openCount, openSizes, ReadAt] <;> omega
  | writeAt h off n er =>
    rcases hht : s.handles[h]? with _ | (_ | sz)
    · simp [step, hht] at hs
    · simp [step, hht] at hs
    · simp only [step, hht, Option.some.injEq] at hs
      have hle := opens_getElem_le_sum s.handles h sz hht
      subst hs
      by_cases hn : 0 < n
      · by_cases hov : sz < off + n
        · obtain ⟨hl, hsum⟩ := opens_set_some s.handles h sz (off + n) hht
          refine ⟨?_, ?_, ?_, ?_⟩ <;>
            simp [openCount, openSizes, WriteAt, updateSizeLocked, hn, hov] <;>
            first
              | omega
              | (split <;> omega)
        · obtain ⟨hl, hsum⟩ := opens_set_some s.handles h sz sz hht
          refine ⟨?_, ?_, ?_, ?_⟩ <;>
            simp [openCount, openSizes, WriteAt, hn, hov] <;> omega
      · obtain ⟨hl, hsum⟩ := opens_set_some s.handles h sz sz hht
        refine ⟨?_, ?_, ?_, ?_⟩ <;>
          simp [openCount, openSizes, WriteAt, hn] <;> omega
  | truncate h len er =>
    rcases hht : s.handles[h]? with _ | (_ | sz)
    · simp [step, hht] at hs
    · simp [step, hht] at hs
    · simp only [step, hht, Option.some.injEq] at hs
      have hle := opens_getElem_le_sum s.handles h sz hht
      subst hs
      cases er with
      | none =>
        obtain ⟨hl, hsum⟩ := opens_set_some s.handles h sz len hht
        refine ⟨?_, ?_, ?_, ?_⟩ <;>
          simp [openCount, openSizes, Truncate, updateSizeLocked] <;>
          first
            | omega
            | (split <;> omega)
      | some er =>
        obtain ⟨hl, hsum⟩ := opens_set_some s.handles h sz sz hht
        refine ⟨?_, ?_, ?_, ?_⟩ <;>
          simp [openCount, openSizes, Truncate] <;> omega
  | close h er =>
    rcases hht : s.handles[h]? with _ | (_ | sz)
    · simp [step, hht] at hs
    · simp [step, hht] at hs
    · simp only [step, hht, Option.some.injEq] at hs
      have hle := opens_getElem_le_sum s.handles h sz hht
      subst hs
      obtain ⟨hl, hsum⟩ := opens_set_none s.handles h sz hht
      refine ⟨?_, ?_, ?_, ?_⟩ <;>
        simp [openCount, openSizes, Close] <;> omega

theorem poolInv_init : PoolInv initSys := by
  simp [PoolInv, initSys, initPool, initStats, openCount, openSizes, opens]

theorem run_inv {ε : Type} {es : List (Event ε)} {s s' : SysState}
    (hr : run s es = some s') (hinv : PoolInv s) : PoolInv s' := by
  induction es generalizing s with
  | nil =>
    simp [run] at hr
    subst hr
    exact hinv
  | cons e es ih =>
    simp only [run] at hr
    cases hstep : step s e with
    | none => rw [hstep] at hr; simp at hr
    | some s1 => rw [hstep] at hr; exact ih hr (step_inv hstep hinv)

theorem step_peaks_mono {ε : Type} {s s' : SysState} {e : Event ε}
    (hs : step s e = some s') :
    s.pool.stats.FilesCountPeak ≤ s'.pool.stats.FilesCountPeak ∧
    s.pool.stats.FilesSizeBytesPeak ≤ s'.pool.stats.FilesSizeBytesPeak := by
  cases e with
  | newFile ierr =>
    cases ierr with
    | some er =>
      simp [step, NewFile] at hs
      subst hs
      exact ⟨le_refl _, le_refl _⟩
    | none =>
      simp [step, NewFile] at hs
      subst hs
      constructor <;> simp <;> split <;> omega
  | readAt h n er =>
    rcases hht : s.handles[h]? with _ | (_ | sz)
    · simp [step, hht] at hs
    · simp [step, hht] at hs
    · simp only [step, hht, Option.some.injEq] at hs
      subst hs
      constructor <;> simp [ReadAt]
  | writeAt h off n er =>
    rcases hht : s.handles[h]? with _ | (_ | sz)
    · simp [step, hht] at hs
    · simp [step, hht] at hs
    · simp only [step, hht, Option.some.injEq] at hs
      subst hs
      by_cases hn : 0 < n
      · by_cases hov : sz < off + n
        · constructor <;> simp [WriteAt, updateSizeLocked, hn, hov] <;>
            first
              | omega
              | (split <;> omega)
        · constructor <;> simp [WriteAt, hn, hov]
      · constructor <;> simp [WriteAt, hn]
  | truncate h len er =>
    rcases hht : s.handles[h]? with _ | (_ | sz)
    · simp [step, hht] at hs
    · simp [step, hht] at hs
    · simp only [step, hht, Option.some.injEq] at hs
      subst hs
      cases er with
      | none =>
        constructor <;> simp [Truncate, updateSizeLocked] <;>
          first
            | omega
            | (split <;> omega)
      | some er =>
        constructor <;> simp [Truncate]
  | close h er =>
    rcases hht : s.handles[h]? with _ | (_ | sz)
    · simp [step, hht] at hs
    · simp [step, hht] at hs
    · simp only [step, hht, Option.some.injEq] at hs
      subst hs
      constructor <;> simp [Close]

theorem run_peaks_mono {ε : Type} {es : List (Event ε)} {s s' : SysState}
    (hr : run s es = some s') :
    s.pool.stats.FilesCountPeak ≤ s'.pool.stats.FilesCountPeak ∧
    s.pool.stats.FilesSizeBytesPeak ≤ s'.pool.stats.FilesSizeBytesPeak := by
  induction es generalizing s with
  | nil =>
    simp [run] at hr
    subst hr
    exact ⟨le_refl _, le_refl _⟩
  | cons e es ih =>
    simp only [run] at hr
    cases hstep : step s e with
    | none => rw [hstep] at hr; simp at hr
    | some s1 =>
      rw [hstep] at hr
      obtain ⟨m1, m2⟩ := step_peaks_mono hstep
      obtain ⟨m3, m4⟩ := ih hr
      exact ⟨le_trans m1 m3, le_trans m2 m4⟩

/-- Number of WriteAt calls an event performs. -/
def writeCountDelta : Event ε → Nat
  | Event.writeAt _ _ _ _ => 1
  | _ => 0

/-- Bytes the inner handle accepted in an event: the bytes-written result
of a WriteAt call, 0 for every other event. -/
def writeBytesDelta : Event ε → Nat
  | Event.writeAt _ _ n _ => n
  | _ => 0

/-- Recognizer for Close events. -/
def isCloseEvent : Event ε → Bool
  | Event.close _ _ => true
  | _ => false

theorem step_write_stats {ε : Type} {s s' : SysState} {e : Event ε}
    (hs : step s e = some s') :
    s'.pool.stats.WritesCount = s.pool.stats.WritesCount + writeCountDelta e ∧
    s'.pool.stats.WritesSizeBytes =
      s.pool.stats.WritesSizeBytes + writeBytesDelta e := by
  cases e with
  | newFile ierr =>
    cases ierr with
    | some er =>
      simp [step, NewFile] at hs
      subst hs
      simp [writeCountDelta, writeBytesDelta]
    | none =>
      simp [step, NewFile] at hs
      subst hs
      simp [writeCountDelta, writeBytesDelta]
  | readAt h n er =>
    rcases hht : s.handles[h]? with _ | (_ | sz)
    · simp [step, hht] at hs
    · simp [step, hht] at hs
    · simp only [step, hht, Option.some.injEq] at hs
      subst hs
      simp [ReadAt, writeCountDelta, writeBytesDelta]
  | writeAt h off n er =>
    rcases hht : s.handles[h]? with _ | (_ | sz)
    · simp [step, hht] at hs
    · simp [step, hht] at hs
    · simp only [step, hht, Option.some.injEq] at hs
      subst hs
      by_cases hn : 0 < n
      · by_cases hov : sz < off + n
        · simp [WriteAt, updateSizeLocked, hn, hov, writeCountDelta,
            writeBytesDelta]
        · simp [WriteAt, hn, hov, writeCountDelta, writeBytesDelta]
      · simp [WriteAt, hn, writeCountDelta, writeBytesDelta]
  | truncate h len er =>
    rcases hht : s.handles[h]? with _ | (_ | sz)
    · simp [step, hht] at hs
    · simp [step, hht] at hs
    · simp only [step, hht, Option.some.injEq] at hs
      subst hs
      cases er with
      | none => simp [Truncate, updateSizeLocked, writeCountDelta, writeBytesDelta]
      | some er => simp [Truncate, writeCountDelta, writeBytesDelta]
  | close h er =>
    rcases hht : s.handles[h]? with _ | (_ | sz)
    · simp [step, hht] at hs
    · simp [step, hht] at hs
    · simp only [step, hht, Option.some.injEq] at hs
      subst hs
      simp [Close, writeCountDelta, writeBytesDelta]

theorem run_write_stats {ε : Type} {es : List (Event ε)} {s s' : SysState}
    (hr : run s es = some s') :
    s'.pool.stats.WritesCount =
      s.pool.stats.WritesCount + (es.map writeCountDelta).sum ∧
    s'.pool.stats.WritesSizeBytes =
      s.pool.stats.WritesSizeBytes + (es.map writeBytesDelta).sum := by
  induction es generalizing s with
  | nil =>
    simp [run] at hr
    subst hr
    simp
  | cons e es ih =>
    simp only [run] at hr
    cases hstep : step s e with
    | none => rw [hstep] at hr; simp at hr
    | some s1 =>
      rw [hstep] at hr
      obtain ⟨d1, d2⟩ := step_write_stats hstep
      obtain ⟨r1, r2⟩ := ih hr
      constructor <;> simp [r1, r2, d1, d2] <;> omega

theorem step_close_stats {ε : Type} {s s' : SysState} {h : Nat}
    {er : Option ε} (hs : step s (Event.close h er) = some s') :
    s'.pool.stats = s.pool.stats := by
  rcases hht : s.handles[h]? with _ | (_ | sz)
  · simp [step, hht] at hs
  · simp [step, hht] at hs
  · simp only [step, hht, Option.some.injEq] at hs
    subst hs
    simp [Close]

theorem run_close_stats {ε : Type} {es : List (Event ε)} {s s' : SysState}
    (hall : es.all isCloseEvent = true) (hr : run s es = some s') :
    s'.pool.stats = s.pool.stats := by
  induction es generalizing s with
  | nil =>
    simp [run] at hr
    subst hr
    rfl
  | cons e es ih =>
    simp only [List.all_cons, Bool.and_eq_true] at hall
    simp only [run] at hr
    cases hstep : step s e with
    | none => rw [hstep] at hr; simp at hr
    | some s1 =>
      rw [hstep] at hr
      cases e with
      | close h er => rw [ih hall.2 hr, step_close_stats hstep]
      | newFile a => simp [isCloseEvent] at hall
      | readAt a b c => simp [isCloseEvent] at hall
      | writeAt a b c d => simp [isCloseEvent] at hall
      | truncate a b c => simp [isCloseEvent] at hall

theorem opens_all_none {l : List (Option Nat)}
    (h : l.all Option.isNone = true) : opens l = [] := by
  induction l with
  | nil => rfl
  | cons x xs ih =>
    simp only [List.all_cons, Bool.and_eq_true] at h
    cases x with
    | none => simpa [opens] using ih h.2
    | some a => simp at h

/-- C1: transparency of results and errors.  For every operation on an
instrumented file handle (ReadAt, WriteAt, Truncate, Close), the returned
value and error are exactly the wrapped inner handle's outcome, for every
pool state, handle size, buffer offset, transfer count and inner result:
the instrumentation never swallows, wraps, or alters them. -/
theorem C1_operation_transparency {ε : Type} :
    (∀ (fp : PoolState) (fsize : Nat) (inner : Nat × Option ε),
        (ReadAt fp fsize inner).2 = inner) ∧
    (∀ (fp : PoolState) (fsize off : Nat) (inner : Nat × Option ε),
        (WriteAt fp fsize off inner).2 = inner) ∧
    (∀ (fp : PoolState) (fsize length : Nat) (innerErr : Option ε),
        (Truncate fp fsize length innerErr).2 = innerErr) ∧
    (∀ (fp : PoolState) (fsize : Nat) (innerErr : Option ε),
        (Close fp fsize innerErr).2 = innerErr) :=
  ⟨fun _ _ _ => rfl, fun _ _ _ _ => rfl, fun _ _ _ _ => rfl, fun _ _ _ => rfl⟩

/-- C2: the executor annotation never fails the action.  The primary result
is always preserved; if marshalling the stats snapshot succeeds exactly one
auxiliary-metadata entry is appended, and if it fails the response is
unchanged except for one attached descriptive error. -/
theorem C2_annotation_never_fails_action {ρ μ ε : Type}
    (response : ExecuteResponse ρ μ ε) (stats : FilePoolResourceUsage)
    (marshal : FilePoolResourceUsage → Except ε μ) :
    ((ExecuteAnnotate response stats marshal).result = response.result) ∧
    (∀ m, marshal stats = Except.ok m →
        ExecuteAnnotate response stats marshal =
          { response with
              auxiliaryMetadata := response.auxiliaryMetadata ++ [m] }) ∧
    (∀ e, marshal stats = Except.error e →
        ExecuteAnnotate response stats marshal =
          { response with
              attachedErrors :=
                response.attachedErrors ++ [(marshalFailureMessage, e)] }) := by
  refine ⟨?_, ?_, ?_⟩
  · unfold ExecuteAnnotate
    cases marshal stats <;> simp [attachErrorToExecuteResponse]
  · intro m hm
    simp [ExecuteAnnotate, hm]
  · intro e he
    simp [ExecuteAnnotate, he, attachErrorToExecuteResponse]

theorem C2_witness :
    ExecuteAnnotate (⟨0, [], []⟩ : ExecuteResponse Nat Nat Nat) initStats
        (fun _ => Except.ok 5) = ⟨0, [5], []⟩ ∧
    ExecuteAnnotate (⟨0, [], []⟩ : ExecuteResponse Nat Nat Nat) initStats
        (fun _ => Except.error 3) = ⟨0, [], [(marshalFailureMessage, 3)]⟩ := by
  constructor
  · have h :=
      (C2_annotation_never_fails_action (⟨0, [], []⟩ : ExecuteResponse Nat Nat Nat)
        initStats (fun _ => Except.ok 5)).2.1 5 rfl
    simpa using h
  · have h :=
      (C2_annotation_never_fails_action (⟨0, [], []⟩ : ExecuteResponse Nat Nat Nat)
        initStats (fun _ => Except.error 3)).2.2 3 rfl
    simpa using h

/-- C8: creation-failure atomicity.  When the inner pool's NewFile fails,
the instrumented NewFile returns no handle and exactly that error, with the
whole pool state (all stats fields and both live counters) untouched; on
success, FilesCreated and totalFiles each grow by one, FilesCountPeak is
raised to totalFiles when smaller, every other field is unchanged, and the
fresh handle starts at size zero. -/
theorem C8_newfile_atomicity {ε : Type} (fp : PoolState) :
    (∀ e : ε, NewFile fp (some e) = (fp, none, some e)) ∧
    ((NewFile fp (none : Option ε)).2.1 = some 0 ∧
     (NewFile fp (none : Option ε)).2.2 = none ∧
     (NewFile fp (none : Option ε)).1.stats.FilesCreated =
       fp.stats.FilesCreated + 1 ∧
     (NewFile fp (none : Option ε)).1.totalFiles = fp.totalFiles + 1 ∧
     (NewFile fp (none : Option ε)).1.stats.FilesCountPeak =
       max fp.stats.FilesCountPeak (fp.totalFiles + 1) ∧
     (NewFile fp (none : Option ε)).1.totalSize = fp.totalSize ∧
     (NewFile fp (none : Option ε)).1.stats.FilesSizeBytesPeak =
       fp.stats.FilesSizeBytesPeak ∧
     (NewFile fp (none : Option ε)).1.stats.ReadsCount = fp.stats.ReadsCount ∧
     (NewFile fp (none : Option ε)).1.stats.ReadsSizeBytes =
       fp.stats.ReadsSizeBytes ∧
     (NewFile fp (none : Option ε)).1.stats.WritesCount = fp.stats.WritesCount ∧
     (NewFile fp (none : Option ε)).1.stats.WritesSizeBytes =
       fp.stats.WritesSizeBytes ∧
     (NewFile fp (none : Option ε)).1.stats.TruncatesCount =
       fp.stats.TruncatesCount) := by
  refine ⟨fun e => rfl, ?_, ?_, ?_, ?_, ?_, ?_, ?_, ?_, ?_, ?_, ?_, ?_⟩ <;>
    simp [NewFile] <;>
    first
      | omega
      | (split <;> omega)

/-- C3: pool state invariant.  After every sequence of operations from a
fresh pool, totalFiles equals the number of handles created but not yet
closed and totalSize equals the sum of their current sizes; each peak field
bounds its live counter; and across any further sequence of steps both peak
fields never decrease (hence each peak bounds every historical value of its
live counter). -/
theorem C3_pool_state_invariant {ε : Type} (es1 es2 : List (Event ε))
    (s1 s2 : SysState) (hr1 : run initSys es1 = some s1)
    (hr2 : run s1 es2 = some s2) :
    (s2.pool.totalFiles = openCount s2 ∧
     s2.pool.totalSize = openSizes s2 ∧
     s2.pool.totalFiles ≤ s2.pool.stats.FilesCountPeak ∧
     s2.pool.totalSize ≤ s2.pool.stats.FilesSizeBytesPeak) ∧
    (s1.pool.stats.FilesCountPeak ≤ s2.pool.stats.FilesCountPeak ∧
     s1.pool.stats.FilesSizeBytesPeak ≤ s2.pool.stats.FilesSizeBytesPeak) := by
  have hi1 := run_inv hr1 poolInv_init
  have hi2 := run_inv hr2 hi1
  exact ⟨hi2, run_peaks_mono hr2⟩

theorem C3_witness :
    ((SysState.mk ⟨⟨1, 1, 5, 0, 0, 1, 5, 0⟩, 5, 1⟩ [some 5]).pool.totalFiles =
       openCount (SysState.mk ⟨⟨1, 1, 5, 0, 0, 1, 5, 0⟩, 5, 1⟩ [some 5]) ∧
     (SysState.mk ⟨⟨1, 1, 5, 0, 0, 1, 5, 0⟩, 5, 1⟩ [some 5]).pool.totalSize =
       openSizes (SysState.mk ⟨⟨1, 1, 5, 0, 0, 1, 5, 0⟩, 5, 1⟩ [some 5]) ∧
     (SysState.mk ⟨⟨1, 1, 5, 0, 0, 1, 5, 0⟩, 5, 1⟩ [some 5]).pool.totalFiles ≤
       (SysState.mk ⟨⟨1, 1, 5, 0, 0, 1, 5, 0⟩, 5, 1⟩
         [some 5]).pool.stats.FilesCountPeak ∧
     (SysState.mk ⟨⟨1, 1, 5, 0, 0, 1, 5, 0⟩, 5, 1⟩ [some 5]).pool.totalSize ≤
       (SysState.mk ⟨⟨1, 1, 5, 0, 0, 1, 5, 0⟩, 5, 1⟩
         [some 5]).pool.stats.FilesSizeBytesPeak) ∧
    ((SysState.mk ⟨⟨1, 1, 0, 0, 0, 0, 0, 0⟩, 0, 1⟩
        [some 0]).pool.stats.FilesCountPeak ≤
       (SysState.mk ⟨⟨1, 1, 5, 0, 0, 1, 5, 0⟩, 5, 1⟩
         [some 5]).pool.stats.FilesCountPeak ∧
     (SysState.mk ⟨⟨1, 1, 0, 0, 0, 0, 0, 0⟩, 0, 1⟩
        [some 0]).pool.stats.FilesSizeBytesPeak ≤
       (SysState.mk ⟨⟨1, 1, 5, 0, 0, 1, 5, 0⟩, 5, 1⟩
         [some 5]).pool.stats.FilesSizeBytesPeak) :=
  C3_pool_state_invariant ([Event.newFile none] : List (Event Nat))
    [Event.writeAt 0 0 5 none]
    (SysState.mk ⟨⟨1, 1, 0, 0, 0, 0, 0, 0⟩, 0, 1⟩ [some 0])
    (SysState.mk ⟨⟨1, 1, 5, 0, 0, 1, 5, 0⟩, 5, 1⟩ [some 5])
    (by decide) (by decide)

/-- C4: read/write bookkeeping.  Each ReadAt increments ReadsCount by one
and ReadsSizeBytes by the bytes the inner handle actually read; each
WriteAt increments WritesCount by one and WritesSizeBytes by the bytes the
inner handle actually accepted, in both cases regardless of the inner
error; and over every run from a fresh pool the final WritesCount and
WritesSizeBytes equal the number of WriteAt calls and the sum of the bytes
actually accepted (not the bytes requested). -/
theorem C4_read_write_bookkeeping {ε : Type} :
    (∀ (fp : PoolState) (fsize : Nat) (inner : Nat × Option ε),
        (ReadAt fp fsize inner).1.1.stats.ReadsCount =
          fp.stats.ReadsCount + 1 ∧
        (ReadAt fp fsize inner).1.1.stats.ReadsSizeBytes =
          fp.stats.ReadsSizeBytes + inner.1) ∧
    (∀ (fp : PoolState) (fsize off : Nat) (inner : Nat × Option ε),
        (WriteAt fp fsize off inner).1.1.stats.WritesCount =
          fp.stats.WritesCount + 1 ∧
        (WriteAt fp fsize off inner).1.1.stats.WritesSizeBytes =
          fp.stats.WritesSizeBytes + inner.1) ∧
    (∀ (es : List (Event ε)) (s' : SysState), run initSys es = some s' →
        s'.pool.stats.WritesCount = (es.map writeCountDelta).sum ∧
        s'.pool.stats.WritesSizeBytes = (es.map writeBytesDelta).sum) := by
  refine ⟨fun fp fsize inner => ⟨rfl, rfl⟩, ?_, ?_⟩
  · intro fp fsize off inner
    obtain ⟨n, er⟩ := inner
    by_cases hn : 0 < n
    · by_cases hov : fsize < off + n
      · constructor <;> simp [WriteAt, updateSizeLocked, hn, hov]
      · constructor <;> simp [WriteAt, hn, hov]
    · constructor <;> simp [WriteAt, hn]
  · intro es s' hr
    have h := run_write_stats hr
    simpa [initSys, initPool, initStats] using h

theorem C4_witness :
    (SysState.mk ⟨⟨1, 1, 7, 0, 0, 1, 7, 0⟩, 7, 1⟩ [some 7]).pool.stats.WritesCount =
      (([Event.newFile none, Event.writeAt 0 0 7 none] : List (Event Nat)).map
        writeCountDelta).sum ∧
    (SysState.mk ⟨⟨1, 1, 7, 0, 0, 1, 7, 0⟩, 7, 1⟩
        [some 7]).pool.stats.WritesSizeBytes =
      (([Event.newFile none, Event.writeAt 0 0 7 none] : List (Event Nat)).map
        writeBytesDelta).sum :=
  C4_read_write_bookkeeping.2.2
    ([Event.newFile none, Event.writeAt 0 0 7 none] : List (Event Nat))
    (SysState.mk ⟨⟨1, 1, 7, 0, 0, 1, 7, 0⟩, 7, 1⟩ [some 7]) (by decide)

/-- C5: write size tracking.  For a WriteAt answered with n bytes written:
if n > 0 and offset + n exceeds the handle's current size, the handle's
size becomes offset + n and the live total size changes by exactly
(offset + n) - oldSize; if n = 0 or offset + n is at most the current
size, handle size and live total size are unchanged.  ReadAt and WriteAt
never decrease a handle's size (Truncate is the only operation that may). -/
theorem C5_write_size_tracking {ε : Type} (fp : PoolState) (fsize off n : Nat)
    (er : Option ε) :
    (0 < n → fsize < off + n → fsize ≤ fp.totalSize →
       (WriteAt fp fsize off (n, er)).1.2 = off + n ∧
       (WriteAt fp fsize off (n, er)).1.1.totalSize + fsize =
         fp.totalSize + (off + n)) ∧
    (n = 0 ∨ off + n ≤ fsize →
       (WriteAt fp fsize off (n, er)).1.2 = fsize ∧
       (WriteAt fp fsize off (n, er)).1.1.totalSize = fp.totalSize) ∧
    ((ReadAt fp fsize (n, er)).1.2 = fsize) ∧
    (fsize ≤ (WriteAt fp fsize off (n, er)).1.2) := by
  refine ⟨?_, ?_, rfl, ?_⟩
  · intro hn hov hb
    constructor <;> simp [WriteAt, updateSizeLocked, hn, hov] <;> omega
  · intro hcase
    have hno : ¬(0 < n) ∨ ¬(fsize < off + n) := by omega
    rcases hno with hn | hov
    · constructor <;> simp [WriteAt, hn]
    · rcases Nat.lt_or_ge 0 n with hn | hn
      · constructor <;> simp [WriteAt, hn, hov]
      · have hn0 : ¬(0 < n) := by omega
        constructor <;> simp [WriteAt, hn0]
  · by_cases hn : 0 < n
    · by_cases hov : fsize < off + n
      · simp [WriteAt, updateSizeLocked, hn, hov]
        omega
      · simp [WriteAt, hn, hov]
    · simp [WriteAt, hn]

theorem C5_witness :
    ((WriteAt (PoolState.mk initStats 10 1) 10 5 ((10 : Nat), (none : Option Nat))).1.2 =
       5 + 10 ∧
     (WriteAt (PoolState.mk initStats 10 1) 10 5
         ((10 : Nat), (none : Option Nat))).1.1.totalSize + 10 = 10 + (5 + 10)) ∧
    ((WriteAt (PoolState.mk initStats 10 1) 10 5 ((0 : Nat), (none : Option Nat))).1.2 =
       10 ∧
     (WriteAt (PoolState.mk initStats 10 1) 10 5
         ((0 : Nat), (none : Option Nat))).1.1.totalSize = 10) :=
  ⟨(C5_write_size_tracking (PoolState.mk initStats 10 1) 10 5 10
      (none : Option Nat)).1 (by decide) (by decide) (by decide),
   (C5_write_size_tracking (PoolState.mk initStats 10 1) 10 5 0
      (none : Option Nat)).2.1 (Or.inl rfl)⟩

/-- C6: truncate bookkeeping.  Every Truncate increments TruncatesCount by
exactly one whether or not the inner call fails and returns the inner
error unchanged; on success the handle's size becomes the given length;
on failure size and live total are unchanged; shrinking a handle from
size s to length l at most s reduces the live total by exactly s - l and
leaves the already-recorded FilesSizeBytesPeak unchanged. -/
theorem C6_truncate_bookkeeping {ε : Type} (fp : PoolState)
    (fsize length : Nat) (er : Option ε) :
    ((Truncate fp fsize length er).1.1.stats.TruncatesCount =
      fp.stats.TruncatesCount + 1) ∧
    ((Truncate fp fsize length er).2 = er) ∧
    (er = none → (Truncate fp fsize length er).1.2 = length) ∧
    (∀ e, er = some e →
       (Truncate fp fsize length er).1.2 = fsize ∧
       (Truncate fp fsize length er).1.1.totalSize = fp.totalSize) ∧
    (er = none → length ≤ fsize → fsize ≤ fp.totalSize →
     fp.totalSize ≤ fp.stats.FilesSizeBytesPeak →
       (Truncate fp fsize length er).1.1.totalSize + (fsize - length) =
         fp.totalSize ∧
       (Truncate fp fsize length er).1.1.stats.FilesSizeBytesPeak =
         fp.stats.FilesSizeBytesPeak) := by
  refine ⟨?_, rfl, ?_, ?_, ?_⟩
  · cases er <;> simp [Truncate, updateSizeLocked]
  · intro h
    subst h
    simp [Truncate, updateSizeLocked]
  · intro e h
    subst h
    constructor <;> simp [Truncate]
  · intro h hshrink hb hpk
    subst h
    constructor <;> simp [Truncate, updateSizeLocked] <;>
      first
        | omega
        | (split <;> omega)

theorem C6_witness :
    ((Truncate (PoolState.mk ⟨0, 0, 20, 0, 0, 0, 0, 0⟩ 20 1) 20 5
        (none : Option Nat)).1.1.totalSize + (20 - 5) = 20 ∧
     (Truncate (PoolState.mk ⟨0, 0, 20, 0, 0, 0, 0, 0⟩ 20 1) 20 5
        (none : Option Nat)).1.1.stats.FilesSizeBytesPeak = 20) ∧
    ((Truncate (PoolState.mk ⟨0, 0, 20, 0, 0, 0, 0, 0⟩ 20 1) 20 5
        (some (3 : Nat))).1.2 = 20 ∧
     (Truncate (PoolState.mk ⟨0, 0, 20, 0, 0, 0, 0, 0⟩ 20 1) 20 5
        (some (3 : Nat))).1.1.totalSize = 20) :=
  ⟨(C6_truncate_bookkeeping (PoolState.mk ⟨0, 0, 20, 0, 0, 0, 0, 0⟩ 20 1) 20 5
      (none : Option Nat)).2.2.2.2 rfl (by decide) (by decide) (by decide),
   (C6_truncate_bookkeeping (PoolState.mk ⟨0, 0, 20, 0, 0, 0, 0, 0⟩ 20 1) 20 5
      (some (3 : Nat))).2.2.2.1 3 rfl⟩

/-- C7: close bookkeeping and final state.  Every Close decrements the live
file count by one, subtracts the handle's current size from the live total
size, changes no stats field, and returns the inner error unchanged,
regardless of the inner result; and after a run followed by a sequence of
Close events that leaves every created handle closed, totalFiles and
totalSize are zero while the whole stats record is exactly as it was
before the closes. -/
theorem C7_close_bookkeeping {ε : Type} :
    (∀ (fp : PoolState) (fsize : Nat) (er : Option ε),
        (Close fp fsize er).2 = er ∧
        (Close fp fsize er).1.stats = fp.stats ∧
        (Close fp fsize er).1.totalFiles = fp.totalFiles - 1 ∧
        (Close fp fsize er).1.totalSize = fp.totalSize - fsize) ∧
    (∀ (es1 es2 : List (Event ε)) (s1 s2 : SysState),
        run initSys es1 = some s1 → run s1 es2 = some s2 →
        es2.all isCloseEvent = true →
        s2.handles.all Option.isNone = true →
        s2.pool.totalFiles = 0 ∧ s2.pool.totalSize = 0 ∧
        s2.pool.stats = s1.pool.stats) := by
  refine ⟨fun fp fsize er => ⟨rfl, rfl, rfl, rfl⟩, ?_⟩
  intro es1 es2 s1 s2 hr1 hr2 hcloses hnone
  have hinv : PoolInv s2 := run_inv hr2 (run_inv hr1 poolInv_init)
  obtain ⟨h1, h2, _, _⟩ := hinv
  have hop : opens s2.handles = [] := opens_all_none hnone
  refine ⟨?_, ?_, run_close_stats hcloses hr2⟩
  · rw [h1]
    simp [openCount, hop]
  · rw [h2]
    simp [openSizes, hop]

theorem C7_witness :
    (SysState.mk ⟨⟨1, 1, 4, 0, 0, 1, 4, 0⟩, 0, 0⟩ [none]).pool.totalFiles = 0 ∧
    (SysState.mk ⟨⟨1, 1, 4, 0, 0, 1, 4, 0⟩, 0, 0⟩ [none]).pool.totalSize = 0 ∧
    (SysState.mk ⟨⟨1, 1, 4, 0, 0, 1, 4, 0⟩, 0, 0⟩ [none]).pool.stats =
      (SysState.mk ⟨⟨1, 1, 4, 0, 0, 1, 4, 0⟩, 4, 1⟩ [some 4]).pool.stats :=
  C7_close_bookkeeping.2
    ([Event.newFile none, Event.writeAt 0 0 4 none] : List (Event Nat))
    [Event.close 0 none]
    (SysState.mk ⟨⟨1, 1, 4, 0, 0, 1, 4, 0⟩, 4, 1⟩ [some 4])
    (SysState.mk ⟨⟨1, 1, 4, 0, 0, 1, 4, 0⟩, 0, 0⟩ [none])
    (by decide) (by decide) (by decide) (by decide)

/-- Scenario events for C9: create handles A (index 0) and B (index 1),
write 100 bytes to A at offset 0 and 50 bytes to B at offset 0, the inner
handle accepting all bytes. -/
def scenarioAfterWrites : List (Event Nat) :=
  [Event.newFile none, Event.newFile none,
   Event.writeAt 0 0 100 none, Event.writeAt 1 0 50 none]

/-- Scenario continued: truncate A to length 10. -/
def scenarioAfterTruncate : List (Event Nat) :=
  scenarioAfterWrites ++ [Event.truncate 0 10 none]

/-- Full scenario: additionally close both handles. -/
def scenarioAll : List (Event Nat) :=
  scenarioAfterTruncate ++ [Event.close 0 none, Event.close 1 none]

/-- Final state of the full scenario. -/
def scenarioFinal : SysState :=
  ⟨⟨⟨2, 2, 150, 0, 0, 2, 150, 1⟩, 0, 0⟩, [none, none]⟩

/-- C9: end-to-end scenario.  Running the two creates, the two writes, the
truncate of A to 10 and both closes from a fresh pool yields WritesCount 2,
WritesSizeBytes 150, TruncatesCount 1, FilesCountPeak 2,
FilesSizeBytesPeak at least 150 and totalFiles 0; the live total size is
150 after the two writes and 60 after the truncate. -/
theorem C9_end_to_end_scenario :
    run initSys scenarioAll = some scenarioFinal ∧
    scenarioFinal.pool.stats.WritesCount = 2 ∧
    scenarioFinal.pool.stats.WritesSizeBytes = 150 ∧
    scenarioFinal.pool.stats.TruncatesCount = 1 ∧
    scenarioFinal.pool.stats.FilesCountPeak = 2 ∧
    150 ≤ scenarioFinal.pool.stats.FilesSizeBytesPeak ∧
    scenarioFinal.pool.totalFiles = 0 ∧
    (run initSys scenarioAfterWrites).map (fun s => s.pool.totalSize) =
      some 150 ∧
    (run initSys scenarioAfterTruncate).map (fun s => s.pool.totalSize) =
      some 60 := by
  decide
